import Mathlib

/-!
Verification of the pyHRV / pyphysio peak-description indicator core.

The concrete indicator classes (`PeaksMax`, `PeaksMin`, `PeaksMean`, `PeaksNum`,
`DurationMin/Max/Mean`, `SlopeMin/Max/Mean`) are translated from
`src/pyphysio/indicators/PeaksDescription.py`.  The signal-processing tools
they call (`PeakDetection`, `PeakSelection`, `Durations`, `Slopes`) and the
parameter-resolution framework (`Parameters`, `BaseIndicator`) live in modules
of the repository that are not part of the provided sources, so they are
modelled from the specification (sections 4.1 - 4.6), as indicated in their
doc comments.

Numeric values are rationals extended with a NaN element, written as
`Option ℚ` with `none` playing the role of NaN: comparisons against NaN are
false and arithmetic involving NaN yields NaN, mirroring IEEE semantics for
the operations the code uses (no rounding is involved anywhere).
-/

/-- A sample value: a rational number or NaN (`none`). -/
abbrev V := Option ℚ

/-- Strict less-than on values; any comparison involving NaN is false. -/
def vlt : V → V → Bool
  | some a, some b => decide (a < b)
  | _, _ => false

/-- Strict greater-than on values; any comparison involving NaN is false. -/
def vgt (a b : V) : Bool := vlt b a

/-!
Rational arithmetic helpers.  The standard `Rat.add/sub/mul/inv` are marked
irreducible in the library, which blocks kernel evaluation of the concrete
scenarios; these equivalents are built from the reducible primitives `mkRat`
and `Rat.divInt`, and each is proved equal to the corresponding standard
operation below, so the symbolic proofs can freely rewrite between them.
-/

/-- Addition of rationals via `mkRat` (kernel-computable). -/
def qadd (a b : ℚ) : ℚ := mkRat (a.num * b.den + b.num * a.den) (a.den * b.den)

/-- Subtraction of rationals via `mkRat` (kernel-computable). -/
def qsub (a b : ℚ) : ℚ := mkRat (a.num * b.den - b.num * a.den) (a.den * b.den)

/-- Multiplication of rationals via `mkRat` (kernel-computable). -/
def qmul (a b : ℚ) : ℚ := mkRat (a.num * b.num) (a.den * b.den)

/-- Division of rationals via `Rat.divInt` (kernel-computable);
division by zero yields zero, as for the standard division. -/
def qdiv (a b : ℚ) : ℚ := Rat.divInt (a.num * b.den) ((a.den : ℤ) * b.num)

/-- The rational `n / 1` for a natural `n` (kernel-computable cast). -/
def qofNat (n : ℕ) : ℚ := mkRat (Int.ofNat n) 1

/-- Binary maximum of rationals (kernel-computable). -/
def qmax2 (a b : ℚ) : ℚ := if a < b then b else a

/-- Binary minimum of rationals (kernel-computable). -/
def qmin2 (a b : ℚ) : ℚ := if b < a then b else a

/-- Sum of a rational list via `qadd` (kernel-computable). -/
def qsum : List ℚ → ℚ
  | [] => 0
  | x :: xs => qadd x (qsum xs)

/-- Subtract a rational constant from a value; NaN propagates. -/
def vsubC : V → ℚ → V
  | some a, d => some (qsub a d)
  | none, _ => none

/-- Add a rational constant to a value; NaN propagates. -/
def vaddC : V → ℚ → V
  | some a, d => some (qadd a d)
  | none, _ => none

/-- Scan state of the peak detector: running min/max with their sample
positions, the phase flag, and the extrema emitted so far. -/
structure PDState where
  mn : V
  mx : V
  mnpos : ℕ
  mxpos : ℕ
  lookformax : Bool
  maxtab : List (ℕ × V)
  mintab : List (ℕ × V)
deriving DecidableEq

/-- Update the running maximum with sample `v` at index `i`. -/
def updMax (s : PDState) (i : ℕ) (v : V) : PDState :=
  if vgt v s.mx then { s with mx := v, mxpos := i } else s

/-- Update the running minimum with sample `v` at index `i`. -/
def updMin (s : PDState) (i : ℕ) (v : V) : PDState :=
  if vlt v s.mn then { s with mn := v, mnpos := i } else s

/-- Emission phase of one detector step: confirm a maximum (resp. minimum)
when the sample drops `delta` below the running maximum (resp. rises `delta`
above the running minimum). -/
def emitStep (delta : ℚ) (s : PDState) (i : ℕ) (v : V) : PDState :=
  if s.lookformax then
    if vlt v (vsubC s.mx delta) then
      { s with maxtab := s.maxtab ++ [(s.mxpos, s.mx)],
               mn := v, mnpos := i, lookformax := false }
    else s
  else
    if vgt v (vaddC s.mn delta) then
      { s with mintab := s.mintab ++ [(s.mnpos, s.mn)],
               mx := v, mxpos := i, lookformax := true }
    else s

/-- One step of the detector scan at index `i` with sample `v`:
unconditional running-extrema updates followed by the emission checks. -/
def pdStep (delta : ℚ) (s : PDState) (i : ℕ) (v : V) : PDState :=
  emitStep delta (updMin (updMax s i v) i v) i v

/-- Run the detector over an indexed sample list. -/
def pdRun (delta : ℚ) : PDState → List (ℕ × V) → PDState
  | s, [] => s
  | s, q :: rest => pdRun delta (pdStep delta s q.1 q.2) rest

/-- Modelled from the spec: `PeakDetection` (section 4.3), whose source module
`tools/Tools.py` is not among the provided files.  Threshold-based alternating
extrema detector: a single left-to-right scan maintaining running min/max and
a `lookformax` flag initially true, emitting `(position, value)` pairs.  The
running extrema start at the first sample, which reproduces the conventional
plus/minus-infinity initialisation for the first step.  Returns
`(maxtab, mintab)`; the index and value sequences of the spec are the `map`s
of these by the two projections. -/
def peakDetection (delta : ℚ) (vals : List V) : List (ℕ × V) × List (ℕ × V) :=
  match vals with
  | [] => ([], [])
  | v0 :: _ =>
    let s := pdRun delta ⟨v0, v0, 0, 0, true, [], []⟩ vals.enum
    (s.maxtab, s.mintab)

/-- Keep only the non-NaN entries of a value list. -/
def dropNaN (l : List V) : List ℚ := l.filterMap id

/-- Maximum of a rational list, `none` on the empty list. -/
def qmax : List ℚ → Option ℚ
  | [] => none
  | x :: xs => some (xs.foldl qmax2 x)

/-- Minimum of a rational list, `none` on the empty list. -/
def qmin : List ℚ → Option ℚ
  | [] => none
  | x :: xs => some (xs.foldl qmin2 x)

/-- Modelled from the spec: numpy's `nanmax` as used by the reductions —
the maximum of the non-NaN entries, NaN when there are none. -/
def nanmax (l : List V) : V := qmax (dropNaN l)

/-- Modelled from the spec: numpy's `nanmin` — the minimum of the non-NaN
entries, NaN when there are none. -/
def nanmin (l : List V) : V := qmin (dropNaN l)

/-- Modelled from the spec: numpy's `nanmean` — the mean of the non-NaN
entries, NaN when there are none. -/
def nanmean (l : List V) : V :=
  match dropNaN l with
  | [] => none
  | x :: xs => some (qdiv (qsum (x :: xs)) (qofNat (x :: xs).length))

/-- A signal: ordered samples plus a uniform sampling rate; the time of
sample `i` is `i / fsamp` (spec section 3, Data Model). -/
structure Signal where
  values : List V
  fsamp : ℚ

/-- Amplitude at index `j`; out-of-range reads are NaN. -/
def sampleAt (vals : List V) (j : ℕ) : V := vals.getD j none

/-- Modelled from the spec: conversion of a window length in time units to a
sample count via the sampling rate (section 4.4) — the integer part of
`t * fs`. -/
def winSamples (t fs : ℚ) : ℕ :=
  ((qmul t fs).num / ((qmul t fs).den : ℤ)).toNat

/-- The indices `lo, lo+1, …, hi` (empty when `hi < lo`). -/
def windowIdxs (lo hi : ℕ) : List ℕ := (List.range (hi + 1 - lo)).map (· + lo)

/-- Pick the candidate with the lowest amplitude; on ties the later index
wins, so for a window scanned towards the peak the boundary nearest the
peak is selected. -/
def pickMinLater (cands : List (ℕ × ℚ)) : Option (ℕ × ℚ) :=
  cands.foldl
    (fun acc jc =>
      match acc with
      | none => some jc
      | some jb => if jc.2 ≤ jb.2 then some jc else some jb)
    none

/-- Pick the candidate with the lowest amplitude; on ties the earlier index
wins, so for a window scanned away from the peak the boundary nearest the
peak is selected. -/
def pickMinEarlier (cands : List (ℕ × ℚ)) : Option (ℕ × ℚ) :=
  cands.foldl
    (fun acc jc =>
      match acc with
      | none => some jc
      | some jb => if jc.2 < jb.2 then some jc else some jb)
    none

/-- Modelled from the spec: the start boundary of peak `p` (section 4.4).
Search the window `[p - pre, p]` clipped to `[0, p]` for the lowest
amplitude nearest the peak; the peak is dropped (`none`) when no sample in
the window is strictly lower than the peak amplitude (degenerate or flat
window) or the peak amplitude is NaN. -/
def startBoundary (vals : List V) (pre : ℕ) (p : ℕ) : Option ℕ :=
  match sampleAt vals p with
  | none => none
  | some ap =>
    let cands := (windowIdxs (p - pre) p).filterMap
      (fun j => (sampleAt vals j).map (fun a => (j, a)))
    match pickMinLater cands with
    | some jb => if jb.2 < ap then some jb.1 else none
    | none => none

/-- Modelled from the spec: the stop boundary of peak `p` (section 4.4).
Search the window `[p, p + post]` clipped to `[p, n-1]` for the lowest
amplitude nearest the peak; dropped under the same degenerate/flat
conditions as the start boundary. -/
def stopBoundary (vals : List V) (post : ℕ) (p : ℕ) : Option ℕ :=
  match sampleAt vals p with
  | none => none
  | some ap =>
    let cands := (windowIdxs p (min (p + post) (vals.length - 1))).filterMap
      (fun j => (sampleAt vals j).map (fun a => (j, a)))
    match pickMinEarlier cands with
    | some jb => if jb.2 < ap then some jb.1 else none
    | none => none

/-- Modelled from the spec: `PeakSelection` (section 4.4), whose source module
`tools/Tools.py` is not among the provided files.  For each detected peak,
find a start and stop boundary in the clipped windows around it; a peak with
no valid boundary contributes no entry, so the output sequences may be
shorter than `idx_maxs`. -/
def peakSelection (sig : Signal) (idx_maxs : List ℕ) (pre post : ℚ) :
    List ℕ × List ℕ :=
  let preS := winSamples pre sig.fsamp
  let postS := winSamples post sig.fsamp
  let pairs := idx_maxs.filterMap (fun p =>
    match startBoundary sig.values preS p, stopBoundary sig.values postS p with
    | some a, some b => some (a, b)
    | _, _ => none)
  (pairs.map Prod.fst, pairs.map Prod.snd)

/-- Modelled from the spec: `Durations` (section 4.5) — one
`stop_time - start_time` per supplied pair, NaN when the pair is inverted,
never an error. -/
def durations (sig : Signal) (starts stops : List ℕ) : List V :=
  (starts.zip stops).map
    (fun q => if q.2 < q.1 then none
              else some (qdiv (qsub (qofNat q.2) (qofNat q.1)) sig.fsamp))

/-- Slope from index `a` up to index `p`:
`(amplitude[p] - amplitude[a]) / (time[p] - time[a])`, NaN when the time
difference is zero or an amplitude is NaN (spec section 4.6). -/
def slopeAt (sig : Signal) (a p : ℕ) : V :=
  let dt := qdiv (qsub (qofNat p) (qofNat a)) sig.fsamp
  if dt = 0 then none
  else
    match sampleAt sig.values p, sampleAt sig.values a with
    | some vp, some va => some (qdiv (qsub vp va) dt)
    | _, _ => none

/-- Modelled from the spec: `Slopes` (section 4.6), whose source module is
not among the provided files.  Pairs the supplied start indices with the
supplied peak indices positionally and produces one slope per pair. -/
def slopes (sig : Signal) (starts peaks : List ℕ) : List V :=
  (starts.zip peaks).map (fun q => slopeAt sig q.1 q.2)

/-- Modelled from the spec: the intervals of the peaks that survive boundary
selection, each keeping its own peak index (sections 4.4 and 4.6 require
later stages to pair data of the same accepted peak).  Used as the reference
against which the positional pairing performed by the code is compared. -/
def survivingIntervals (sig : Signal) (idx_maxs : List ℕ) (pre post : ℚ) :
    List (ℕ × ℕ × ℕ) :=
  let preS := winSamples pre sig.fsamp
  let postS := winSamples post sig.fsamp
  idx_maxs.filterMap (fun p =>
    match startBoundary sig.values preS p, stopBoundary sig.values postS p with
    | some a, some b => some (a, p, b)
    | _, _ => none)

/-- The slope of each surviving interval computed between its own start and
its own peak, following the spec's words for section 4.6. -/
def sameIntervalSlopes (sig : Signal) (idx_maxs : List ℕ) (pre post : ℚ) :
    List V :=
  (survivingIntervals sig idx_maxs pre post).map (fun t => slopeAt sig t.1 t.2.1)

/-- The parameter names occurring in the indicator code: the three declared
descriptor names and the two undeclared names the duration/slope algorithms
look up. -/
inductive PName where
  | delta
  | pre_max
  | post_max
  | win_pre
  | win_post
deriving DecidableEq

/-- Errors of the embedded computations: a failed parameter-map lookup
(Python `KeyError`) or a failed parameter validation (`ParameterError`). -/
inductive PError where
  | keyError : PName → PError
  | paramError : PName → PError
deriving DecidableEq

/-- A resolved parameter map: association list from names to values. -/
abbrev Params := List (PName × ℚ)

/-- Lookup of `params[n]`; a missing key is a `KeyError`, as in Python. -/
def lookupParam (params : Params) (n : PName) : Except PError ℚ :=
  match params.find? (fun q => q.1 == n) with
  | some q => .ok q.2
  | none => .error (.keyError n)

/-- One declared, validated, optionally-defaulted parameter
(spec section 4.1; the descriptor tables themselves are in the source,
`_Peaks._params_descriptors` and `_PeaksInterval._params_descriptors`). -/
structure ParamDescriptor where
  name : PName
  required : Bool
  default : ℚ
  check : ℚ → Bool

/-- Modelled from the spec: resolution of one descriptor against the
supplied keyword values (section 4.1) — `ParameterError` when the parameter
is required and absent or when the validity predicate rejects the value. -/
def resolveParam (d : ParamDescriptor) (kw : Params) : Except PError ℚ :=
  match kw.find? (fun q => q.1 == d.name) with
  | some q => if d.check q.2 then .ok q.2 else .error (.paramError d.name)
  | none =>
    if d.required then .error (.paramError d.name)
    else if d.check d.default then .ok d.default
    else .error (.paramError d.name)

/-- Modelled from the spec: resolution of a whole descriptor table
(section 4.2) — fail fast on the first invalid parameter, otherwise produce
the resolved parameter map containing exactly the declared names. -/
def resolveParams (ds : List ParamDescriptor) (kw : Params) :
    Except PError Params :=
  match ds with
  | [] => .ok []
  | d :: rest =>
    match resolveParam d kw with
    | .error e => .error e
    | .ok v =>
      match resolveParams rest kw with
      | .error e => .error e
      | .ok tail => .ok ((d.name, v) :: tail)

/-- Descriptor table of the amplitude-group base class `_Peaks`
(source lines 29-31): `delta`, required, validated by `x > 0`. -/
def peaksDescriptors : List ParamDescriptor :=
  [⟨.delta, true, 0, fun x => decide (x > 0)⟩]

/-- Descriptor table of the interval-group base class `_PeaksInterval`
(source lines 168-178): `delta` required with `x > 0`, `pre_max` and
`post_max` optional with default `1` and `x > 0`. -/
def intervalDescriptors : List ParamDescriptor :=
  [⟨.delta, true, 0, fun x => decide (x > 0)⟩,
   ⟨.pre_max, false, 1, fun x => decide (x > 0)⟩,
   ⟨.post_max, false, 1, fun x => decide (x > 0)⟩]

/-- The result of one indicator algorithm: either an error escaping to the
caller, or a value plus the list of diagnostic messages emitted through the
warning hook. -/
abbrev AlgoResult := Except PError (V × List String)

/-- Modelled from the spec: `compute` (section 4.2) looks the key up in the
cache and otherwise invokes `algorithm`; with the empty starting cache it
returns exactly the algorithm's result on the signal and resolved map. -/
def compute (alg : Signal → Params → AlgoResult) (sig : Signal)
    (params : Params) : AlgoResult :=
  alg sig params

/-- `PeaksMax.algorithm` (source lines 53-63): detect peaks with `delta`,
warn and return NaN when none is found, otherwise `nanmax` of `val_maxs`. -/
def PeaksMax.algorithm (sig : Signal) (params : Params) : AlgoResult :=
  match lookupParam params .delta with
  | .error e => .error e
  | .ok delta =>
    let r := peakDetection delta sig.values
    if r.1.length = 0 then .ok (none, ["No peak found"])
    else .ok (nanmax (r.1.map Prod.snd), [])

/-- `PeaksMin.algorithm` (source lines 83-93). -/
def PeaksMin.algorithm (sig : Signal) (params : Params) : AlgoResult :=
  match lookupParam params .delta with
  | .error e => .error e
  | .ok delta =>
    let r := peakDetection delta sig.values
    if r.1.length = 0 then .ok (none, ["No peak found"])
    else .ok (nanmin (r.1.map Prod.snd), [])

/-- `PeaksMean.algorithm` (source lines 112-122). -/
def PeaksMean.algorithm (sig : Signal) (params : Params) : AlgoResult :=
  match lookupParam params .delta with
  | .error e => .error e
  | .ok delta =>
    let r := peakDetection delta sig.values
    if r.1.length = 0 then .ok (none, ["No peak found"])
    else .ok (nanmean (r.1.map Prod.snd), [])

/-- `PeaksNum.algorithm` (source lines 141-151): NaN plus a warning when no
peak is found, otherwise the number of detected peaks. -/
def PeaksNum.algorithm (sig : Signal) (params : Params) : AlgoResult :=
  match lookupParam params .delta with
  | .error e => .error e
  | .ok delta =>
    let r := peakDetection delta sig.values
    if r.1.length = 0 then .ok (none, ["No peak found"])
    else .ok (some ((r.1.length : ℚ)), [])

/-- `DurationMin.algorithm` (source lines 201-219).  Note the lookups of
`win_pre` and `win_post`, names the descriptor table does not declare. -/
def DurationMin.algorithm (sig : Signal) (params : Params) : AlgoResult :=
  match lookupParam params .delta with
  | .error e => .error e
  | .ok delta =>
  match lookupParam params .win_pre with
  | .error e => .error e
  | .ok win_pre =>
  match lookupParam params .win_post with
  | .error e => .error e
  | .ok win_post =>
    let r := peakDetection delta sig.values
    if r.1.length = 0 then .ok (none, ["No peaks found"])
    else
      let sel := peakSelection sig (r.1.map Prod.fst) win_pre win_post
      if sel.1.length = 0 then
        .ok (none, ["Unable to detect the start of the peaks"])
      else .ok (nanmin (durations sig sel.1 sel.2), [])

/-- `DurationMax.algorithm` (source lines 242-261); same `win_pre`/`win_post`
lookups. -/
def DurationMax.algorithm (sig : Signal) (params : Params) : AlgoResult :=
  match lookupParam params .delta with
  | .error e => .error e
  | .ok delta =>
  match lookupParam params .win_pre with
  | .error e => .error e
  | .ok win_pre =>
  match lookupParam params .win_post with
  | .error e => .error e
  | .ok win_post =>
    let r := peakDetection delta sig.values
    if r.1.length = 0 then .ok (none, ["No peaks found"])
    else
      let sel := peakSelection sig (r.1.map Prod.fst) win_pre win_post
      if sel.1.length = 0 then
        .ok (none, ["Unable to detect the start of the peaks"])
      else .ok (nanmax (durations sig sel.1 sel.2), [])

/-- `DurationMean.algorithm` (source lines 284-303); same `win_pre`/`win_post`
lookups. -/
def DurationMean.algorithm (sig : Signal) (params : Params) : AlgoResult :=
  match lookupParam params .delta with
  | .error e => .error e
  | .ok delta =>
  match lookupParam params .win_pre with
  | .error e => .error e
  | .ok win_pre =>
  match lookupParam params .win_post with
  | .error e => .error e
  | .ok win_post =>
    let r := peakDetection delta sig.values
    if r.1.length = 0 then .ok (none, ["No peaks found"])
    else
      let sel := peakSelection sig (r.1.map Prod.fst) win_pre win_post
      if sel.1.length = 0 then
        .ok (none, ["Unable to detect the start of the peaks"])
      else .ok (nanmean (durations sig sel.1 sel.2), [])

/-- `SlopeMin.algorithm` (source lines 326-344): also reads `win_pre` and
`win_post`; the slopes pair the surviving starts with the full `idx_maxs`. -/
def SlopeMin.algorithm (sig : Signal) (params : Params) : AlgoResult :=
  match lookupParam params .delta with
  | .error e => .error e
  | .ok delta =>
  match lookupParam params .win_pre with
  | .error e => .error e
  | .ok pre_max =>
  match lookupParam params .win_post with
  | .error e => .error e
  | .ok post_max =>
    let r := peakDetection delta sig.values
    if r.1.length = 0 then .ok (none, ["No peaks found"])
    else
      let sel := peakSelection sig (r.1.map Prod.fst) pre_max post_max
      if sel.1.length = 0 then
        .ok (none, ["Unable to detect the start of the peaks"])
      else .ok (nanmin (slopes sig sel.1 (r.1.map Prod.fst)), [])

/-- `SlopeMax.algorithm` (source lines 367-384): reads the declared
`pre_max`/`post_max`; the slopes pair the surviving starts with the full
`idx_maxs`. -/
def SlopeMax.algorithm (sig : Signal) (params : Params) : AlgoResult :=
  match lookupParam params .delta with
  | .error e => .error e
  | .ok delta =>
  match lookupParam params .pre_max with
  | .error e => .error e
  | .ok pre_max =>
  match lookupParam params .post_max with
  | .error e => .error e
  | .ok post_max =>
    let r := peakDetection delta sig.values
    if r.1.length = 0 then .ok (none, ["No peaks found"])
    else
      let sel := peakSelection sig (r.1.map Prod.fst) pre_max post_max
      if sel.1.length = 0 then
        .ok (none, ["Unable to detect the start of the peaks"])
      else .ok (nanmax (slopes sig sel.1 (r.1.map Prod.fst)), [])

/-- `SlopeMean.algorithm` (source lines 407-424): reads the declared
`pre_max`/`post_max`; the slopes pair the surviving starts with the full
`idx_maxs`. -/
def SlopeMean.algorithm (sig : Signal) (params : Params) : AlgoResult :=
  match lookupParam params .delta with
  | .error e => .error e
  | .ok delta =>
  match lookupParam params .pre_max with
  | .error e => .error e
  | .ok pre_max =>
  match lookupParam params .post_max with
  | .error e => .error e
  | .ok post_max =>
    let r := peakDetection delta sig.values
    if r.1.length = 0 then .ok (none, ["No peaks found"])
    else
      let sel := peakSelection sig (r.1.map Prod.fst) pre_max post_max
      if sel.1.length = 0 then
        .ok (none, ["Unable to detect the start of the peaks"])
      else .ok (nanmean (slopes sig sel.1 (r.1.map Prod.fst)), [])

/-- Construction of an amplitude-group indicator (`PeaksMax`): resolve the
declared descriptor table against the supplied keyword values, failing fast
before any signal is touched (spec section 4.2). -/
def PeaksMax.construct (kw : Params) : Except PError Params :=
  resolveParams peaksDescriptors kw

/-- Construction of `PeaksMin`; same shared descriptor table. -/
def PeaksMin.construct (kw : Params) : Except PError Params :=
  resolveParams peaksDescriptors kw

/-- Construction of `PeaksMean`; same shared descriptor table. -/
def PeaksMean.construct (kw : Params) : Except PError Params :=
  resolveParams peaksDescriptors kw

/-- Construction of `PeaksNum`; same shared descriptor table. -/
def PeaksNum.construct (kw : Params) : Except PError Params :=
  resolveParams peaksDescriptors kw

/-- The function names defined at module level in `src/pyHRV/Files.py`. -/
def filesDefinedNames : List String :=
  ["load_data_series", "save_data_series", "load_rr_data_series",
   "load_rr_from_ecg", "load_rr_from_bvp"]

/-- The `__all__` export list of `src/pyHRV/Files.py` (line 10). -/
def filesAll : List String := ["load_rr_data_series", "save_rr_data_series"]

/-- Python semantics of `from M import *` with an `__all__` list: the import
succeeds exactly when every listed name is defined in the module. -/
def starImportOk (defined allNames : List String) : Bool :=
  allNames.all (fun n => decide (n ∈ defined))

/-- Concrete signals used in the scenario theorems. -/
def flatVals : List V := [some 1, some 1, some 1, some 1, some 1]

/-- The flat signal of concrete scenario 2, at sampling rate 1. -/
def flatSig : Signal := ⟨flatVals, 1⟩

/-- The signal of concrete scenario 1, at sampling rate 1. -/
def sig1 : Signal :=
  ⟨[some 0, some 2, some 0, some 3, some 0, some 5, some 0, some 1, some 0], 1⟩

/-- A signal whose first detected peak sits at index 0 and is dropped by
boundary selection while the second survives. -/
def sigC4 : Signal := ⟨[some 5, some 0, some 5, some 0], 1⟩

/-- A small signal with one clear peak. -/
def sigC1 : Signal := ⟨[some 0, some 2, some 0], 1⟩

/-- Alternating merge of two lists, taking from the first list first:
`alt [a, b] [x, y] = [a, x, b, y]`.  Applied to the detector's maxima and
minima index lists it reconstructs the emission order, so its sortedness
expresses the interleaving invariant. -/
def alt : List ℕ → List ℕ → List ℕ
  | [], ys => ys
  | x :: xs, [] => x :: xs
  | x :: xs, y :: ys => x :: y :: alt xs ys

/-- The emitted extrema indices of a detector state, in emission order. -/
def mergedIdx (s : PDState) : List ℕ :=
  alt (s.maxtab.map Prod.fst) (s.mintab.map Prod.fst)

/-- The indexed list carries consecutive indices starting at `b` (the shape
of `List.enumFrom b`). -/
def IdxFrom : List (ℕ × V) → ℕ → Prop
  | [], _ => True
  | q :: rest, b => q.1 = b ∧ IdxFrom rest (b + 1)

/-- Invariant of the detector scan after processing all samples at indices
below `b`: the running-extrema positions are in range, the emissions
alternate starting with a maximum (so the counts differ by at most one and
the merged index list is strictly increasing), every emitted index precedes
the pending running-extremum position, and every emitted value is non-NaN. -/
structure PDInv (s : PDState) (b : ℕ) : Prop where
  hmx : s.mxpos < b
  hmn : s.mnpos < b
  hlenT : s.lookformax = true → s.maxtab.length = s.mintab.length
  hlenF : s.lookformax = false → s.maxtab.length = s.mintab.length + 1
  hchain : List.Pairwise (· < ·) (mergedIdx s)
  hbT : s.lookformax = true → ∀ x ∈ mergedIdx s, x < s.mxpos
  hbF : s.lookformax = false → ∀ x ∈ mergedIdx s, x < s.mnpos
  hsM : ∀ q ∈ s.maxtab, (Prod.snd q).isSome = true
  hsN : ∀ q ∈ s.mintab, (Prod.snd q).isSome = true

/-! ### The kernel-computable rational operations agree with the standard ones -/

lemma qadd_eq (a b : ℚ) : qadd a b = a + b := by
  have ha : ((a.den : ℚ)) ≠ 0 := by exact_mod_cast a.den_nz
  have hb : ((b.den : ℚ)) ≠ 0 := by exact_mod_cast b.den_nz
  rw [qadd, Rat.mkRat_eq_div]
  conv_rhs => rw [← Rat.num_div_den a, ← Rat.num_div_den b]
  rw [div_add_div _ _ ha hb]
  push_cast
  ring_nf

lemma qsub_eq (a b : ℚ) : qsub a b = a - b := by
  have ha : ((a.den : ℚ)) ≠ 0 := by exact_mod_cast a.den_nz
  have hb : ((b.den : ℚ)) ≠ 0 := by exact_mod_cast b.den_nz
  rw [qsub, Rat.mkRat_eq_div]
  conv_rhs => rw [← Rat.num_div_den a, ← Rat.num_div_den b]
  rw [div_sub_div _ _ ha hb]
  push_cast
  ring_nf

lemma qmul_eq (a b : ℚ) : qmul a b = a * b := by
  rw [qmul, Rat.mkRat_eq_div]
  conv_rhs => rw [← Rat.num_div_den a, ← Rat.num_div_den b]
  rw [div_mul_div_comm]
  push_cast
  ring_nf

lemma qdiv_eq (a b : ℚ) : qdiv a b = a / b := by
  by_cases hb : b = 0
  · subst hb
    simp [qdiv, Rat.divInt_zero]
  · have hbn : b.num ≠ 0 := Rat.num_ne_zero.mpr hb
    have ha : ((a.den : ℚ)) ≠ 0 := by exact_mod_cast a.den_nz
    have hb2 : ((b.den : ℚ)) ≠ 0 := by exact_mod_cast b.den_nz
    have hbn2 : ((b.num : ℚ)) ≠ 0 := by exact_mod_cast hbn
    rw [qdiv, Rat.divInt_eq_div]
    conv_rhs => rw [← Rat.num_div_den a, ← Rat.num_div_den b]
    push_cast
    field_simp

lemma qofNat_eq (n : ℕ) : qofNat n = (n : ℚ) := by
  rw [qofNat, Rat.mkRat_eq_div]
  push_cast
  simp

lemma qmax2_eq_max (a b : ℚ) : qmax2 a b = max a b := by
  unfold qmax2
  rcases lt_or_ge a b with h | h
  · rw [if_pos h, max_eq_right h.le]
  · rw [if_neg (not_lt.mpr h), max_eq_left h]

lemma qmin2_eq_min (a b : ℚ) : qmin2 a b = min a b := by
  unfold qmin2
  rcases lt_or_ge b a with h | h
  · rw [if_pos h, min_eq_right h.le]
  · rw [if_neg (not_lt.mpr h), min_eq_left h]

lemma qsum_eq (l : List ℚ) : qsum l = l.sum := by
  induction l with
  | nil => simp [qsum]
  | cons x xs ih => simp [qsum, qadd_eq, ih]

/-! ### Small facts about the value order -/

lemma vlt_self (v : V) : vlt v v = false := by
  cases v <;> simp [vlt]

lemma vlt_vsubC_self {delta : ℚ} (hd : 0 < delta) (v : V) :
    vlt v (vsubC v delta) = false := by
  cases v with
  | none => rfl
  | some a =>
    simp only [vsubC, vlt, decide_eq_false_iff_not, not_lt, qsub_eq]
    linarith

lemma vgt_vaddC_self {delta : ℚ} (hd : 0 < delta) (v : V) :
    vgt v (vaddC v delta) = false := by
  cases v with
  | none => rfl
  | some a =>
    simp only [vaddC, vgt, vlt, decide_eq_false_iff_not, not_lt, qadd_eq]
    linarith

/-- A step whose sample equals both running extrema while seeking a maximum
changes nothing (for a positive threshold). -/
lemma pdStep_stuck {delta : ℚ} (hd : 0 < delta) (s : PDState) (i : ℕ) (v : V)
    (hmx : s.mx = v) (hmn : s.mn = v) (hlf : s.lookformax = true) :
    pdStep delta s i v = s := by
  simp [pdStep, updMax, updMin, emitStep, hmx, hmn, hlf, vgt, vlt_self,
    vlt_vsubC_self hd]

/-- Parameter lookups against the concrete resolved maps reduce by
computation. -/
lemma lookup_delta (q : ℚ) :
    lookupParam [(PName.delta, q)] PName.delta = .ok q := rfl

lemma lookup3_delta (a b c : ℚ) :
    lookupParam [(PName.delta, a), (PName.pre_max, b), (PName.post_max, c)]
      PName.delta = .ok a := rfl

/-! ### Scenario 2: the flat signal (claim C7) -/

/-- On the flat five-sample signal the detector with any positive threshold
never updates its running extrema nor emits anything. -/
lemma flat_detection {delta : ℚ} (hd : 0 < delta) :
    peakDetection delta flatVals = ([], []) := by
  have hs : ∀ i, pdStep delta ⟨some 1, some 1, 0, 0, true, [], []⟩ i (some 1)
      = ⟨some 1, some 1, 0, 0, true, [], []⟩ :=
    fun i => pdStep_stuck hd _ i _ rfl rfl rfl
  simp [peakDetection, flatVals, pdRun, List.enum, List.enumFrom, hs]

/-- C7: on the flat signal `[1, 1, 1, 1, 1]` with any `delta > 0` the peak
detector returns all output sequences empty, and `PeaksMean` returns NaN
while reporting exactly one diagnostic message and no error. -/
theorem flat_signal_peaksMean (delta : ℚ) (hd : 0 < delta) :
    peakDetection delta flatSig.values = ([], []) ∧
    PeaksMean.algorithm flatSig [(.delta, delta)] =
      .ok (none, ["No peak found"]) := by
  have h : peakDetection delta flatSig.values = ([], []) := flat_detection hd
  refine ⟨h, ?_⟩
  simp [PeaksMean.algorithm, lookup_delta, h]

theorem flat_signal_peaksMean_witness :
    peakDetection 1 flatSig.values = ([], []) ∧
    PeaksMean.algorithm flatSig [(.delta, 1)] =
      .ok (none, ["No peak found"]) :=
  flat_signal_peaksMean 1 one_pos

/-! ### Empty-detection behaviour of the amplitude group (claim C2) -/

/-- C2 (counterexample): as stated the claim is false — when no peak is
found, `PeaksNum` returns NaN together with the warning, not the count 0. -/
theorem peaksNum_nan_cex :
    PeaksNum.algorithm flatSig [(.delta, 1)] = .ok (none, ["No peak found"]) ∧
    (none : V) ≠ some (0 : ℚ) := ⟨rfl, by simp⟩

/-- C2 (amended): whenever detection yields no maxima, all four
amplitude-group indicators — `PeaksNum` included — return NaN plus the
single warning `"No peak found"`. -/
theorem amplitude_empty (sig : Signal) (delta : ℚ) (_hd : 0 < delta)
    (h : (peakDetection delta sig.values).1 = []) :
    PeaksMax.algorithm sig [(.delta, delta)] = .ok (none, ["No peak found"]) ∧
    PeaksMin.algorithm sig [(.delta, delta)] = .ok (none, ["No peak found"]) ∧
    PeaksMean.algorithm sig [(.delta, delta)] = .ok (none, ["No peak found"]) ∧
    PeaksNum.algorithm sig [(.delta, delta)] = .ok (none, ["No peak found"]) := by
  refine ⟨?_, ?_, ?_, ?_⟩ <;>
    simp [PeaksMax.algorithm, PeaksMin.algorithm, PeaksMean.algorithm,
      PeaksNum.algorithm, lookup_delta, h]

theorem amplitude_empty_witness :
    PeaksMax.algorithm flatSig [(.delta, 1)] = .ok (none, ["No peak found"]) ∧
    PeaksMin.algorithm flatSig [(.delta, 1)] = .ok (none, ["No peak found"]) ∧
    PeaksMean.algorithm flatSig [(.delta, 1)] = .ok (none, ["No peak found"]) ∧
    PeaksNum.algorithm flatSig [(.delta, 1)] = .ok (none, ["No peak found"]) :=
  amplitude_empty flatSig 1 one_pos (by decide)

/-! ### Scenario 1 (claim C3) -/

/-- C3 (counterexample): on `[0,2,0,3,0,5,0,1,0]` with `delta = 3/2` the
emitted minima indices are `[2, 4]` — the detector, seeking a maximum
first, never emits a minimum at index 0 — so they are neither `[0, 2, 4]`
nor `[0, 2, 4, 6]` as claimed. -/
theorem scenario1_minima_cex :
    (mkRat 3 2 : ℚ) = 3 / 2 ∧
    (peakDetection (mkRat 3 2) sig1.values).2.map Prod.fst = [2, 4] ∧
    ([2, 4] : List ℕ) ≠ [0, 2, 4] ∧ ([2, 4] : List ℕ) ≠ [0, 2, 4, 6] :=
  ⟨by norm_num [Rat.mkRat_eq_div], by decide, by decide, by decide⟩

/-- C3 (amended): scenario 1 with minima at `[2, 4]`: maxima at indices
`[1, 3, 5]` with values `[2, 3, 5]`, `PeaksNum` returns 3 and `PeaksMax`
returns 5. -/
theorem scenario1_amended :
    (mkRat 3 2 : ℚ) = 3 / 2 ∧
    (peakDetection (mkRat 3 2) sig1.values).1.map Prod.fst = [1, 3, 5] ∧
    (peakDetection (mkRat 3 2) sig1.values).1.map Prod.snd =
      [some 2, some 3, some 5] ∧
    (peakDetection (mkRat 3 2) sig1.values).2.map Prod.fst = [2, 4] ∧
    PeaksNum.algorithm sig1 [(.delta, mkRat 3 2)] = .ok (some 3, []) ∧
    PeaksMax.algorithm sig1 [(.delta, mkRat 3 2)] = .ok (some 5, []) :=
  ⟨by norm_num [Rat.mkRat_eq_div], by decide, by decide, by decide, rfl, rfl⟩

/-! ### Positional misalignment of the slope pairing (claim C4) -/

/-- C4: on `[5, 0, 5, 0]` with `delta = 1`, `pre_max = post_max = 1` the
detector finds peaks at indices 0 and 2, boundary selection drops the peak
at 0 and keeps the interval `(1, 2, 3)` of the peak at 2; the code then
pairs the surviving start 1 positionally with the dropped peak 0, so
`SlopeMean` returns `-5` although the slope of the one surviving interval is
`5`: the computed slope list differs from the same-interval slope list. -/
theorem slope_misalignment_cex :
    (peakDetection 1 sigC4.values).1.map Prod.fst = [0, 2] ∧
    peakSelection sigC4 [0, 2] 1 1 = ([1], [3]) ∧
    survivingIntervals sigC4 [0, 2] 1 1 = [(1, 2, 3)] ∧
    SlopeMean.algorithm sigC4 [(.delta, 1), (.pre_max, 1), (.post_max, 1)] =
      .ok (some (-5), []) ∧
    sameIntervalSlopes sigC4 [0, 2] 1 1 = [some 5] ∧
    slopes sigC4 [1] [0, 2] ≠ sameIntervalSlopes sigC4 [0, 2] 1 1 :=
  ⟨by decide, by decide, by decide, rfl, by decide, by decide⟩

/-! ### The undeclared win_pre/win_post lookups (claim C1) -/

/-- C1: resolving the interval descriptor table with a valid `delta` yields
exactly the declared map `delta, pre_max, post_max`; on that resolved map
the algorithms of `DurationMin`, `DurationMax`, `DurationMean` and
`SlopeMin` abort with a `KeyError` for the undeclared name `win_pre`
instead of completing, while `SlopeMean` (which reads the declared names)
completes normally on the same signal and map. -/
theorem interval_win_pre_keyerror :
    resolveParams intervalDescriptors [(.delta, 1)] =
      .ok [(.delta, 1), (.pre_max, 1), (.post_max, 1)] ∧
    compute DurationMin.algorithm sigC1
      [(.delta, 1), (.pre_max, 1), (.post_max, 1)] =
      .error (.keyError .win_pre) ∧
    compute DurationMax.algorithm sigC1
      [(.delta, 1), (.pre_max, 1), (.post_max, 1)] =
      .error (.keyError .win_pre) ∧
    compute DurationMean.algorithm sigC1
      [(.delta, 1), (.pre_max, 1), (.post_max, 1)] =
      .error (.keyError .win_pre) ∧
    compute SlopeMin.algorithm sigC1
      [(.delta, 1), (.pre_max, 1), (.post_max, 1)] =
      .error (.keyError .win_pre) ∧
    compute SlopeMean.algorithm sigC1
      [(.delta, 1), (.pre_max, 1), (.post_max, 1)] = .ok (some 2, []) :=
  ⟨rfl, rfl, rfl, rfl, rfl, rfl⟩

/-! ### Fail-fast validation of delta (claim C5) -/

/-- C5: any `delta ≤ 0` supplied to an amplitude-group indicator makes
construction fail with a `ParameterError` on `delta`; construction receives
no signal at all, so no scan can have been performed. -/
theorem construct_rejects_nonpositive_delta (d : ℚ) (hd : d ≤ 0) :
    PeaksMax.construct [(.delta, d)] = .error (.paramError .delta) ∧
    PeaksMin.construct [(.delta, d)] = .error (.paramError .delta) ∧
    PeaksMean.construct [(.delta, d)] = .error (.paramError .delta) ∧
    PeaksNum.construct [(.delta, d)] = .error (.paramError .delta) := by
  have hc : ¬ (d > 0) := not_lt.mpr hd
  have h : resolveParams peaksDescriptors [(.delta, d)] =
      .error (.paramError .delta) := by
    simp [resolveParams, resolveParam, peaksDescriptors, List.find?, hc]
  exact ⟨h, h, h, h⟩

theorem construct_rejects_nonpositive_delta_witness :
    PeaksMax.construct [(.delta, 0)] = .error (.paramError .delta) ∧
    PeaksMin.construct [(.delta, 0)] = .error (.paramError .delta) ∧
    PeaksMean.construct [(.delta, 0)] = .error (.paramError .delta) ∧
    PeaksNum.construct [(.delta, 0)] = .error (.paramError .delta) :=
  construct_rejects_nonpositive_delta 0 (le_refl 0)

/-! ### The broken pyHRV package exports (claim C10) -/

/-- C10: the star import `from Files import *` executed by
`pyHRV/__init__.py` cannot succeed, because `__all__` of `Files.py` lists
`save_rr_data_series`, a name the module never defines, so importing the
package always fails; `load_rr`, imported by `GalaxyFilter`, is not defined
by `Files.py` either. -/
theorem pyHRV_import_always_fails :
    starImportOk filesDefinedNames filesAll = false ∧
    "save_rr_data_series" ∈ filesAll ∧
    "save_rr_data_series" ∉ filesDefinedNames ∧
    "load_rr" ∉ filesDefinedNames := by
  refine ⟨rfl, ?_, ?_, ?_⟩ <;> decide

/-! ### The alternating merge -/

lemma alt_append_left : ∀ (xs ys : List ℕ) (p : ℕ), xs.length = ys.length →
    alt (xs ++ [p]) ys = alt xs ys ++ [p] := by
  intro xs
  induction xs with
  | nil =>
    intro ys p h
    have : ys = [] := List.length_eq_zero.mp h.symm
    subst this
    rfl
  | cons x xs ih =>
    intro ys p h
    cases ys with
    | nil => simp at h
    | cons y ys =>
      have h2 : xs.length = ys.length := by simpa using h
      simp only [List.cons_append, alt, List.append_eq]
      rw [ih ys p h2]

lemma alt_append_right : ∀ (xs ys : List ℕ) (p : ℕ), xs.length = ys.length + 1 →
    alt xs (ys ++ [p]) = alt xs ys ++ [p] := by
  intro xs
  induction xs with
  | nil => intro ys p h; simp at h
  | cons x xs ih =>
    intro ys p h
    cases ys with
    | nil =>
      have : xs = [] := by simpa using h
      subst this
      rfl
    | cons y ys =>
      have h2 : xs.length = ys.length + 1 := by simpa using h
      simp only [List.cons_append, alt, List.append_eq]
      rw [ih ys p h2]

lemma alt_sublist : ∀ (xs ys : List ℕ),
    List.Sublist xs (alt xs ys) ∧ List.Sublist xs (alt ys xs) := by
  intro xs
  induction xs with
  | nil => intro ys; exact ⟨List.nil_sublist _, List.nil_sublist _⟩
  | cons x xs ih =>
    intro ys
    constructor
    · cases ys with
      | nil => exact List.Sublist.refl _
      | cons y ys => exact List.Sublist.cons₂ x ((ih ys).1.cons y)
    · cases ys with
      | nil => exact List.Sublist.refl _
      | cons y ys => exact ((ih ys).2.cons₂ x).cons y

/-! ### More facts about the value order -/

lemma vlt_none_right (v : V) : vlt v none = false := by cases v <;> rfl

lemma vlt_none_left (v : V) : vlt none v = false := by cases v <;> rfl

lemma isSome_of_emit_max {delta : ℚ} {v w : V}
    (h : vlt v (vsubC w delta) = true) : w.isSome = true := by
  cases w
  · simp [vsubC, vlt_none_right] at h
  · rfl

lemma isSome_of_emit_min {delta : ℚ} {v w : V}
    (h : vgt v (vaddC w delta) = true) : w.isSome = true := by
  cases w
  · simp [vaddC, vgt, vlt_none_left] at h
  · rfl

/-! ### Reduction lemmas for the detector step -/

lemma updMax_of_true {s : PDState} {i : ℕ} {v : V} (h : vgt v s.mx = true) :
    updMax s i v = { s with mx := v, mxpos := i } := by
  simp [updMax, h]

lemma updMax_of_false {s : PDState} {i : ℕ} {v : V} (h : vgt v s.mx = false) :
    updMax s i v = s := by
  simp [updMax, h]

lemma updMin_of_true {s : PDState} {i : ℕ} {v : V} (h : vlt v s.mn = true) :
    updMin s i v = { s with mn := v, mnpos := i } := by
  simp [updMin, h]

lemma updMin_of_false {s : PDState} {i : ℕ} {v : V} (h : vlt v s.mn = false) :
    updMin s i v = s := by
  simp [updMin, h]

lemma emitStep_lookT {delta : ℚ} {t : PDState} {i : ℕ} {v : V}
    (hl : t.lookformax = true) (he : vlt v (vsubC t.mx delta) = false) :
    emitStep delta t i v = t := by
  unfold emitStep
  rw [hl, he]
  simp

lemma emitStep_emitT {delta : ℚ} {t : PDState} {i : ℕ} {v : V}
    (hl : t.lookformax = true) (he : vlt v (vsubC t.mx delta) = true) :
    emitStep delta t i v =
      { t with maxtab := t.maxtab ++ [(t.mxpos, t.mx)],
               mn := v, mnpos := i, lookformax := false } := by
  unfold emitStep
  rw [hl, he]
  simp

lemma emitStep_lookF {delta : ℚ} {t : PDState} {i : ℕ} {v : V}
    (hl : t.lookformax = false) (he : vgt v (vaddC t.mn delta) = false) :
    emitStep delta t i v = t := by
  unfold emitStep
  rw [hl, he]
  simp

lemma emitStep_emitF {delta : ℚ} {t : PDState} {i : ℕ} {v : V}
    (hl : t.lookformax = false) (he : vgt v (vaddC t.mn delta) = true) :
    emitStep delta t i v =
      { t with mintab := t.mintab ++ [(t.mnpos, t.mn)],
               mx := v, mxpos := i, lookformax := true } := by
  unfold emitStep
  rw [hl, he]
  simp

/-! ### Invariant preservation -/

lemma inv_emit_max {s : PDState} {b : ℕ} (h : PDInv s b)
    (hLF : s.lookformax = true) (v : V) (hvs : s.mx.isSome = true) :
    PDInv { s with maxtab := s.maxtab ++ [(s.mxpos, s.mx)],
                   mn := v, mnpos := b, lookformax := false } (b + 1) := by
  have hmerge : mergedIdx { s with maxtab := s.maxtab ++ [(s.mxpos, s.mx)],
                                   mn := v, mnpos := b, lookformax := false } =
      mergedIdx s ++ [s.mxpos] := by
    simp only [mergedIdx, List.map_append, List.map_cons, List.map_nil]
    exact alt_append_left _ _ _ (by simp [h.hlenT hLF])
  refine ⟨?_, ?_, ?_, ?_, ?_, ?_, ?_, ?_, ?_⟩
  · exact Nat.lt_succ_of_lt h.hmx
  · exact Nat.lt_succ_self b
  · intro hco; simp at hco
  · intro _
    simp [List.length_append, h.hlenT hLF]
  · rw [hmerge, List.pairwise_append]
    refine ⟨h.hchain, by simp, ?_⟩
    intro x hx y hy
    simp only [List.mem_singleton] at hy
    subst hy
    exact h.hbT hLF x hx
  · intro hco; simp at hco
  · intro _ x hx
    rw [hmerge] at hx
    rcases List.mem_append.mp hx with hx | hx
    · exact (h.hbT hLF x hx).trans h.hmx
    · simp only [List.mem_singleton] at hx
      subst hx
      exact h.hmx
  · intro q hq
    rcases List.mem_append.mp hq with hq | hq
    · exact h.hsM q hq
    · simp only [List.mem_singleton] at hq
      subst hq
      exact hvs
  · exact h.hsN

lemma inv_emit_min {s : PDState} {b : ℕ} (h : PDInv s b)
    (hLF : s.lookformax = false) (v : V) (hvs : s.mn.isSome = true) :
    PDInv { s with mintab := s.mintab ++ [(s.mnpos, s.mn)],
                   mx := v, mxpos := b, lookformax := true } (b + 1) := by
  have hmerge : mergedIdx { s with mintab := s.mintab ++ [(s.mnpos, s.mn)],
                                   mx := v, mxpos := b, lookformax := true } =
      mergedIdx s ++ [s.mnpos] := by
    simp only [mergedIdx, List.map_append, List.map_cons, List.map_nil]
    exact alt_append_right _ _ _ (by simp [h.hlenF hLF])
  refine ⟨?_, ?_, ?_, ?_, ?_, ?_, ?_, ?_, ?_⟩
  · exact Nat.lt_succ_self b
  · exact Nat.lt_succ_of_lt h.hmn
  · intro _
    simp [List.length_append, h.hlenF hLF]
  · intro hco; simp at hco
  · rw [hmerge, List.pairwise_append]
    refine ⟨h.hchain, by simp, ?_⟩
    intro x hx y hy
    simp only [List.mem_singleton] at hy
    subst hy
    exact h.hbF hLF x hx
  · intro _ x hx
    rw [hmerge] at hx
    rcases List.mem_append.mp hx with hx | hx
    · exact (h.hbF hLF x hx).trans h.hmn
    · simp only [List.mem_singleton] at hx
      subst hx
      exact h.hmn
  · intro hco; simp at hco
  · exact h.hsM
  · intro q hq
    rcases List.mem_append.mp hq with hq | hq
    · exact h.hsN q hq
    · simp only [List.mem_singleton] at hq
      subst hq
      exact hvs

lemma inv_no_emit {s : PDState} {b : ℕ} (h : PDInv s b) (mx2 mn2 : V)
    {mxpos2 mnpos2 : ℕ}
    (hx : mxpos2 = s.mxpos ∨ mxpos2 = b) (hn : mnpos2 = s.mnpos ∨ mnpos2 = b) :
    PDInv { s with mx := mx2, mxpos := mxpos2, mn := mn2, mnpos := mnpos2 }
      (b + 1) := by
  refine ⟨?_, ?_, h.hlenT, h.hlenF, h.hchain, ?_, ?_, h.hsM, h.hsN⟩
  · rcases hx with rfl | rfl
    · exact Nat.lt_succ_of_lt h.hmx
    · exact Nat.lt_succ_self _
  · rcases hn with rfl | rfl
    · exact Nat.lt_succ_of_lt h.hmn
    · exact Nat.lt_succ_self _
  · intro hl x hxm
    rcases hx with rfl | rfl
    · exact h.hbT hl x hxm
    · exact (h.hbT hl x hxm).trans h.hmx
  · intro hl x hxm
    rcases hn with rfl | rfl
    · exact h.hbF hl x hxm
    · exact (h.hbF hl x hxm).trans h.hmn

theorem pdStep_inv {delta : ℚ} (hd : 0 < delta) {s : PDState} {b : ℕ}
    (h : PDInv s b) (v : V) : PDInv (pdStep delta s b v) (b + 1) := by
  unfold pdStep
  cases hLF : s.lookformax with
  | true =>
    by_cases hG : vgt v s.mx = true
    · rw [updMax_of_true hG]
      by_cases hL : vlt v s.mn = true
      · rw [updMin_of_true (s := { s with mx := v, mxpos := b }) hL,
          emitStep_lookT (t := { s with mx := v, mxpos := b, mn := v, mnpos := b })
            hLF (vlt_vsubC_self hd v)]
        exact inv_no_emit h v v (Or.inr rfl) (Or.inr rfl)
      · have hL2 : vlt v s.mn = false := by simpa using hL
        rw [updMin_of_false (s := { s with mx := v, mxpos := b }) hL2,
          emitStep_lookT (t := { s with mx := v, mxpos := b })
            hLF (vlt_vsubC_self hd v)]
        exact inv_no_emit h v s.mn (Or.inr rfl) (Or.inl rfl)
    · have hG2 : vgt v s.mx = false := by simpa using hG
      rw [updMax_of_false hG2]
      by_cases hL : vlt v s.mn = true
      · rw [updMin_of_true hL]
        by_cases hE : vlt v (vsubC s.mx delta) = true
        · rw [emitStep_emitT (t := { s with mn := v, mnpos := b }) hLF hE]
          exact inv_emit_max h hLF v (isSome_of_emit_max hE)
        · have hE2 : vlt v (vsubC s.mx delta) = false := by simpa using hE
          rw [emitStep_lookT (t := { s with mn := v, mnpos := b }) hLF hE2]
          exact inv_no_emit h s.mx v (Or.inl rfl) (Or.inr rfl)
      · have hL2 : vlt v s.mn = false := by simpa using hL
        rw [updMin_of_false hL2]
        by_cases hE : vlt v (vsubC s.mx delta) = true
        · rw [emitStep_emitT (t := s) hLF hE]
          exact inv_emit_max h hLF v (isSome_of_emit_max hE)
        · have hE2 : vlt v (vsubC s.mx delta) = false := by simpa using hE
          rw [emitStep_lookT (t := s) hLF hE2]
          exact inv_no_emit h s.mx s.mn (Or.inl rfl) (Or.inl rfl)
  | false =>
    by_cases hG : vgt v s.mx = true
    · rw [updMax_of_true hG]
      by_cases hL : vlt v s.mn = true
      · rw [updMin_of_true (s := { s with mx := v, mxpos := b }) hL,
          emitStep_lookF (t := { s with mx := v, mxpos := b, mn := v, mnpos := b })
            hLF (vgt_vaddC_self hd v)]
        exact inv_no_emit h v v (Or.inr rfl) (Or.inr rfl)
      · have hL2 : vlt v s.mn = false := by simpa using hL
        rw [updMin_of_false (s := { s with mx := v, mxpos := b }) hL2]
        by_cases hE : vgt v (vaddC s.mn delta) = true
        · rw [emitStep_emitF (t := { s with mx := v, mxpos := b }) hLF hE]
          exact inv_emit_min h hLF v (isSome_of_emit_min hE)
        · have hE2 : vgt v (vaddC s.mn delta) = false := by simpa using hE
          rw [emitStep_lookF (t := { s with mx := v, mxpos := b }) hLF hE2]
          exact inv_no_emit h v s.mn (Or.inr rfl) (Or.inl rfl)
    · have hG2 : vgt v s.mx = false := by simpa using hG
      rw [updMax_of_false hG2]
      by_cases hL : vlt v s.mn = true
      · rw [updMin_of_true hL,
          emitStep_lookF (t := { s with mn := v, mnpos := b })
            hLF (vgt_vaddC_self hd v)]
        exact inv_no_emit h s.mx v (Or.inl rfl) (Or.inr rfl)
      · have hL2 : vlt v s.mn = false := by simpa using hL
        rw [updMin_of_false hL2]
        by_cases hE : vgt v (vaddC s.mn delta) = true
        · rw [emitStep_emitF (t := s) hLF hE]
          exact inv_emit_min h hLF v (isSome_of_emit_min hE)
        · have hE2 : vgt v (vaddC s.mn delta) = false := by simpa using hE
          rw [emitStep_lookF (t := s) hLF hE2]
          exact inv_no_emit h s.mx s.mn (Or.inl rfl) (Or.inl rfl)

theorem pdRun_inv {delta : ℚ} (hd : 0 < delta) :
    ∀ (l : List (ℕ × V)) (b : ℕ) (s : PDState),
      PDInv s b → IdxFrom l b → PDInv (pdRun delta s l) (b + l.length) := by
  intro l
  induction l with
  | nil =>
    intro b s h _
    simpa [pdRun] using h
  | cons q rest ih =>
    intro b s h hidx
    have hq : q.1 = b := hidx.1
    have h1 : PDInv (pdStep delta s q.1 q.2) (b + 1) := by
      rw [hq]
      exact pdStep_inv hd h q.2
    have h2 := ih (b + 1) _ h1 hidx.2
    have harith : b + (q :: rest).length = (b + 1) + rest.length := by
      simp only [List.length_cons]
      omega
    rw [harith]
    exact h2

lemma idxFrom_enumFrom (l : List V) : ∀ n : ℕ, IdxFrom (l.enumFrom n) n := by
  induction l with
  | nil => intro n; exact trivial
  | cons x xs ih => intro n; exact ⟨rfl, ih (n + 1)⟩

lemma pdInv_init (v : V) : PDInv ⟨v, v, 0, 0, true, [], []⟩ 1 := by
  refine ⟨Nat.zero_lt_one, Nat.zero_lt_one, fun _ => rfl, ?_, ?_, ?_, ?_, ?_, ?_⟩
  · intro hco; simp at hco
  · exact List.Pairwise.nil
  · intro _ x hx
    simp [mergedIdx, alt] at hx
  · intro hco; simp at hco
  · intro q hq; simp at hq
  · intro q hq; simp at hq

/-- The detector's output invariants for any positive threshold: the merged
emission index list is strictly increasing, the counts of maxima and minima
are equal or differ by one in favour of the maxima, and every emitted value
is non-NaN. -/
theorem peakDetection_props {delta : ℚ} (hd : 0 < delta) (vals : List V) :
    List.Pairwise (· < ·)
      (alt ((peakDetection delta vals).1.map Prod.fst)
           ((peakDetection delta vals).2.map Prod.fst)) ∧
    ((peakDetection delta vals).1.length = (peakDetection delta vals).2.length ∨
      (peakDetection delta vals).1.length =
        (peakDetection delta vals).2.length + 1) ∧
    (∀ q ∈ (peakDetection delta vals).1, (Prod.snd q).isSome = true) ∧
    (∀ q ∈ (peakDetection delta vals).2, (Prod.snd q).isSome = true) := by
  cases vals with
  | nil => simp [peakDetection, alt]
  | cons v0 rest =>
    have hsame : pdStep delta ⟨v0, v0, 0, 0, true, [], []⟩ 0 v0 =
        ⟨v0, v0, 0, 0, true, [], []⟩ :=
      pdStep_stuck hd _ 0 v0 rfl rfl rfl
    have hrw : pdRun delta ⟨v0, v0, 0, 0, true, [], []⟩ ((v0 :: rest).enum) =
        pdRun delta ⟨v0, v0, 0, 0, true, [], []⟩ (rest.enumFrom 1) := by
      show pdRun delta (pdStep delta ⟨v0, v0, 0, 0, true, [], []⟩ 0 v0)
          (rest.enumFrom 1) = _
      rw [hsame]
    have hfin : PDInv (pdRun delta ⟨v0, v0, 0, 0, true, [], []⟩
        ((v0 :: rest).enum)) (1 + rest.length) := by
      rw [hrw]
      have h2 := pdRun_inv hd (rest.enumFrom 1) 1 ⟨v0, v0, 0, 0, true, [], []⟩
        (pdInv_init v0) (idxFrom_enumFrom rest 1)
      simpa using h2
    have hpd : peakDetection delta (v0 :: rest) =
        ((pdRun delta ⟨v0, v0, 0, 0, true, [], []⟩ ((v0 :: rest).enum)).maxtab,
         (pdRun delta ⟨v0, v0, 0, 0, true, [], []⟩ ((v0 :: rest).enum)).mintab) :=
      rfl
    rw [hpd]
    refine ⟨hfin.hchain, ?_, hfin.hsM, hfin.hsN⟩
    cases hb : (pdRun delta ⟨v0, v0, 0, 0, true, [], []⟩
        ((v0 :: rest).enum)).lookformax with
    | true => exact Or.inl (hfin.hlenT hb)
    | false => exact Or.inr (hfin.hlenF hb)

/-- C6: for every `delta > 0` and every finite signal, the detector's
`idx_maxs` and `idx_mins` sequences are each strictly increasing, their
lengths differ by at most one, and the two sequences interleave: merged in
alternation, maxima first, the indices are still strictly increasing, so
every maximum is bounded by its neighbouring minima where those exist. -/
theorem peakDetection_invariants (delta : ℚ) (hd : 0 < delta) (vals : List V) :
    List.Sorted (· < ·) ((peakDetection delta vals).1.map Prod.fst) ∧
    List.Sorted (· < ·) ((peakDetection delta vals).2.map Prod.fst) ∧
    ((peakDetection delta vals).1.map Prod.fst).length ≤
      ((peakDetection delta vals).2.map Prod.fst).length + 1 ∧
    ((peakDetection delta vals).2.map Prod.fst).length ≤
      ((peakDetection delta vals).1.map Prod.fst).length + 1 ∧
    List.Sorted (· < ·)
      (alt ((peakDetection delta vals).1.map Prod.fst)
           ((peakDetection delta vals).2.map Prod.fst)) := by
  obtain ⟨hch, hlen, -, -⟩ := peakDetection_props hd vals
  have hs1 := (alt_sublist ((peakDetection delta vals).1.map Prod.fst)
      ((peakDetection delta vals).2.map Prod.fst)).1
  have hs2 := (alt_sublist ((peakDetection delta vals).2.map Prod.fst)
      ((peakDetection delta vals).1.map Prod.fst)).2
  refine ⟨List.Pairwise.sublist hs1 hch, List.Pairwise.sublist hs2 hch,
    ?_, ?_, hch⟩
  · simp only [List.length_map]
    rcases hlen with h | h <;> omega
  · simp only [List.length_map]
    rcases hlen with h | h <;> omega

theorem peakDetection_invariants_witness :
    List.Sorted (· < ·) ((peakDetection 1 sig1.values).1.map Prod.fst) ∧
    List.Sorted (· < ·) ((peakDetection 1 sig1.values).2.map Prod.fst) ∧
    ((peakDetection 1 sig1.values).1.map Prod.fst).length ≤
      ((peakDetection 1 sig1.values).2.map Prod.fst).length + 1 ∧
    ((peakDetection 1 sig1.values).2.map Prod.fst).length ≤
      ((peakDetection 1 sig1.values).1.map Prod.fst).length + 1 ∧
    List.Sorted (· < ·)
      (alt ((peakDetection 1 sig1.values).1.map Prod.fst)
           ((peakDetection 1 sig1.values).2.map Prod.fst)) :=
  peakDetection_invariants 1 one_pos sig1.values

/-! ### Characterisation of the reductions -/

lemma le_qmax2_left (a b : ℚ) : a ≤ qmax2 a b := by
  by_cases h : a < b
  · rw [qmax2, if_pos h]; exact h.le
  · rw [qmax2, if_neg h]

lemma le_qmax2_right (a b : ℚ) : b ≤ qmax2 a b := by
  by_cases h : a < b
  · rw [qmax2, if_pos h]
  · rw [qmax2, if_neg h]; exact not_lt.mp h

lemma qmax2_choice (a b : ℚ) : qmax2 a b = a ∨ qmax2 a b = b := by
  by_cases h : a < b
  · right; rw [qmax2, if_pos h]
  · left; rw [qmax2, if_neg h]

lemma qmin2_le_left (a b : ℚ) : qmin2 a b ≤ a := by
  by_cases h : b < a
  · rw [qmin2, if_pos h]; exact h.le
  · rw [qmin2, if_neg h]

lemma qmin2_le_right (a b : ℚ) : qmin2 a b ≤ b := by
  by_cases h : b < a
  · rw [qmin2, if_pos h]
  · rw [qmin2, if_neg h]; exact not_lt.mp h

lemma qmin2_choice (a b : ℚ) : qmin2 a b = a ∨ qmin2 a b = b := by
  by_cases h : b < a
  · right; rw [qmin2, if_pos h]
  · left; rw [qmin2, if_neg h]

lemma le_foldl_qmax2 : ∀ (xs : List ℚ) (a : ℚ), a ≤ xs.foldl qmax2 a := by
  intro xs
  induction xs with
  | nil => intro a; exact le_refl a
  | cons x xs ih =>
    intro a
    exact le_trans (le_qmax2_left a x) (ih (qmax2 a x))

lemma mem_le_foldl_qmax2 : ∀ (xs : List ℚ) (a y : ℚ),
    y ∈ xs → y ≤ xs.foldl qmax2 a := by
  intro xs
  induction xs with
  | nil => intro a y hy; simp at hy
  | cons x xs ih =>
    intro a y hy
    rcases List.mem_cons.mp hy with rfl | hy
    · exact le_trans (le_qmax2_right a y) (le_foldl_qmax2 xs (qmax2 a y))
    · exact ih (qmax2 a x) y hy

lemma foldl_qmax2_mem : ∀ (xs : List ℚ) (a : ℚ),
    xs.foldl qmax2 a = a ∨ xs.foldl qmax2 a ∈ xs := by
  intro xs
  induction xs with
  | nil => intro a; exact Or.inl rfl
  | cons x xs ih =>
    intro a
    simp only [List.foldl_cons]
    rcases ih (qmax2 a x) with h | h
    · rcases qmax2_choice a x with h2 | h2
      · exact Or.inl (h.trans h2)
      · refine Or.inr ?_
        rw [h, h2]
        exact List.mem_cons_self x xs
    · exact Or.inr (List.mem_cons_of_mem x h)

lemma foldl_qmin2_le : ∀ (xs : List ℚ) (a : ℚ), xs.foldl qmin2 a ≤ a := by
  intro xs
  induction xs with
  | nil => intro a; exact le_refl a
  | cons x xs ih =>
    intro a
    exact le_trans (ih (qmin2 a x)) (qmin2_le_left a x)

lemma foldl_qmin2_le_mem : ∀ (xs : List ℚ) (a y : ℚ),
    y ∈ xs → xs.foldl qmin2 a ≤ y := by
  intro xs
  induction xs with
  | nil => intro a y hy; simp at hy
  | cons x xs ih =>
    intro a y hy
    rcases List.mem_cons.mp hy with rfl | hy
    · exact le_trans (foldl_qmin2_le xs (qmin2 a y)) (qmin2_le_right a y)
    · exact ih (qmin2 a x) y hy

lemma foldl_qmin2_mem : ∀ (xs : List ℚ) (a : ℚ),
    xs.foldl qmin2 a = a ∨ xs.foldl qmin2 a ∈ xs := by
  intro xs
  induction xs with
  | nil => intro a; exact Or.inl rfl
  | cons x xs ih =>
    intro a
    simp only [List.foldl_cons]
    rcases ih (qmin2 a x) with h | h
    · rcases qmin2_choice a x with h2 | h2
      · exact Or.inl (h.trans h2)
      · refine Or.inr ?_
        rw [h, h2]
        exact List.mem_cons_self x xs
    · exact Or.inr (List.mem_cons_of_mem x h)

lemma qmax_spec {l : List ℚ} (h : l ≠ []) :
    ∃ M, qmax l = some M ∧ M ∈ l ∧ ∀ y ∈ l, y ≤ M := by
  cases l with
  | nil => exact absurd rfl h
  | cons x xs =>
    refine ⟨xs.foldl qmax2 x, rfl, ?_, ?_⟩
    · rcases foldl_qmax2_mem xs x with h2 | h2
      · rw [h2]; exact List.mem_cons_self x xs
      · exact List.mem_cons_of_mem x h2
    · intro y hy
      rcases List.mem_cons.mp hy with rfl | hy
      · exact le_foldl_qmax2 xs y
      · exact mem_le_foldl_qmax2 xs x y hy

lemma qmin_spec {l : List ℚ} (h : l ≠ []) :
    ∃ m, qmin l = some m ∧ m ∈ l ∧ ∀ y ∈ l, m ≤ y := by
  cases l with
  | nil => exact absurd rfl h
  | cons x xs =>
    refine ⟨xs.foldl qmin2 x, rfl, ?_, ?_⟩
    · rcases foldl_qmin2_mem xs x with h2 | h2
      · rw [h2]; exact List.mem_cons_self x xs
      · exact List.mem_cons_of_mem x h2
    · intro y hy
      rcases List.mem_cons.mp hy with rfl | hy
      · exact foldl_qmin2_le xs y
      · exact foldl_qmin2_le_mem xs x y hy

lemma sum_le_length_mul {l : List ℚ} {M : ℚ} (h : ∀ y ∈ l, y ≤ M) :
    l.sum ≤ (l.length : ℚ) * M := by
  induction l with
  | nil => simp
  | cons x xs ih =>
    have hx := h x (List.mem_cons_self x xs)
    have ih2 := ih (fun y hy => h y (List.mem_cons_of_mem x hy))
    simp only [List.sum_cons, List.length_cons]
    push_cast
    rw [add_mul, one_mul]
    linarith

lemma length_mul_le_sum {l : List ℚ} {m : ℚ} (h : ∀ y ∈ l, m ≤ y) :
    (l.length : ℚ) * m ≤ l.sum := by
  induction l with
  | nil => simp
  | cons x xs ih =>
    have hx := h x (List.mem_cons_self x xs)
    have ih2 := ih (fun y hy => h y (List.mem_cons_of_mem x hy))
    simp only [List.sum_cons, List.length_cons]
    push_cast
    rw [add_mul, one_mul]
    linarith

lemma dropNaN_length_of_all_some {l : List V} (h : ∀ v ∈ l, v.isSome = true) :
    (dropNaN l).length = l.length := by
  induction l with
  | nil => rfl
  | cons x xs ih =>
    cases x with
    | none => exact absurd (h none (List.mem_cons_self _ _)) (by simp)
    | some a =>
      have ih2 := ih (fun v hv => h v (List.mem_cons_of_mem _ hv))
      have hcons : dropNaN (some a :: xs) = a :: dropNaN xs := rfl
      rw [hcons, List.length_cons, List.length_cons, ih2]

lemma nanmean_eq_sum_div {l : List V} (h : dropNaN l ≠ []) :
    nanmean l = some ((dropNaN l).sum / ((dropNaN l).length : ℚ)) := by
  obtain ⟨g, gs, hgl⟩ := List.exists_cons_of_ne_nil h
  rw [show nanmean l = (match dropNaN l with
      | [] => none
      | x :: xs => some (qdiv (qsum (x :: xs)) (qofNat (x :: xs).length)))
    from rfl, hgl]
  simp [qdiv_eq, qsum_eq, qofNat_eq]

/-! ### Agreement and order of the amplitude reductions (claim C8) -/

/-- C8: for a fixed signal and `delta > 0` the three amplitude statistics
agree on degeneracy — `PeaksMax` is NaN exactly when `PeaksMin` is and
exactly when `PeaksMean` is, all branching on emptiness of the same detected
maxima — and when they are numbers they are ordered
`PeaksMin ≤ PeaksMean ≤ PeaksMax`, since all three reduce the same
`val_maxs` sequence. -/
theorem amplitude_consistency (sig : Signal) (delta : ℚ) (hd : 0 < delta) :
    ∃ vmx vmn vme : V, ∃ wmx wmn wme : List String,
      PeaksMax.algorithm sig [(.delta, delta)] = .ok (vmx, wmx) ∧
      PeaksMin.algorithm sig [(.delta, delta)] = .ok (vmn, wmn) ∧
      PeaksMean.algorithm sig [(.delta, delta)] = .ok (vme, wme) ∧
      (vmx = none ↔ vmn = none) ∧ (vmx = none ↔ vme = none) ∧
      (∀ a b c : ℚ, vmn = some a → vme = some b → vmx = some c →
        a ≤ b ∧ b ≤ c) := by
  cases htab : (peakDetection delta sig.values).1 with
  | nil =>
    refine ⟨none, none, none, ["No peak found"], ["No peak found"],
      ["No peak found"], ?_, ?_, ?_, Iff.rfl, Iff.rfl, ?_⟩
    · simp [PeaksMax.algorithm, lookup_delta, htab]
    · simp [PeaksMin.algorithm, lookup_delta, htab]
    · simp [PeaksMean.algorithm, lookup_delta, htab]
    · intro a b c ha
      simp at ha
  | cons t ts =>
    obtain ⟨-, -, hsM, -⟩ := peakDetection_props hd sig.values
    rw [htab] at hsM
    have hall : ∀ v ∈ (t :: ts).map Prod.snd, v.isSome = true := by
      intro v hv
      obtain ⟨q, hq, rfl⟩ := List.mem_map.mp hv
      exact hsM q hq
    have hlen : (dropNaN ((t :: ts).map Prod.snd)).length =
        ((t :: ts).map Prod.snd).length :=
      dropNaN_length_of_all_some hall
    have hdne : dropNaN ((t :: ts).map Prod.snd) ≠ [] := by
      intro h0
      rw [h0] at hlen
      simp at hlen
    obtain ⟨M, hM1, hM2, hM3⟩ := qmax_spec hdne
    obtain ⟨m, hm1, hm2, hm3⟩ := qmin_spec hdne
    have hmean := nanmean_eq_sum_div hdne
    have hlen0 : 0 < ((dropNaN ((t :: ts).map Prod.snd)).length : ℚ) := by
      exact_mod_cast List.length_pos.mpr hdne
    have hM1n := hM1
    have hm1n := hm1
    have hmeann := hmean
    simp only [List.map_cons] at hM1n hm1n hmeann
    refine ⟨some M, some m,
      some ((dropNaN ((t :: ts).map Prod.snd)).sum /
        ((dropNaN ((t :: ts).map Prod.snd)).length : ℚ)), [], [], [],
      ?_, ?_, ?_, by simp, by simp, ?_⟩
    · simp [PeaksMax.algorithm, lookup_delta, htab, nanmax, hM1n]
    · simp [PeaksMin.algorithm, lookup_delta, htab, nanmin, hm1n]
    · simp [PeaksMean.algorithm, lookup_delta, htab, hmeann]
    · intro a b c ha hb hc
      obtain rfl : m = a := Option.some.inj ha
      obtain rfl : _ = b := Option.some.inj hb
      obtain rfl : M = c := Option.some.inj hc
      constructor
      · rw [le_div_iff₀ hlen0]
        have h1 := length_mul_le_sum hm3
        rw [mul_comm]
        exact h1
      · rw [div_le_iff₀ hlen0]
        have h2 := sum_le_length_mul hM3
        rw [mul_comm]
        exact h2

theorem amplitude_consistency_witness :
    ∃ vmx vmn vme : V, ∃ wmx wmn wme : List String,
      PeaksMax.algorithm sig1 [(.delta, 1)] = .ok (vmx, wmx) ∧
      PeaksMin.algorithm sig1 [(.delta, 1)] = .ok (vmn, wmn) ∧
      PeaksMean.algorithm sig1 [(.delta, 1)] = .ok (vme, wme) ∧
      (vmx = none ↔ vmn = none) ∧ (vmx = none ↔ vme = none) ∧
      (∀ a b c : ℚ, vmn = some a → vme = some b → vmx = some c →
        a ≤ b ∧ b ≤ c) :=
  amplitude_consistency sig1 1 one_pos

/-! ### NaN-guarded reductions (claim C9) -/

/-- C9: whenever the detected maxima are non-empty and at least one of
their amplitudes is non-NaN, `PeaksMax` returns the greatest of the non-NaN
amplitudes, `PeaksMin` the least, and `PeaksMean` the mean of only the
non-NaN amplitudes — the NaN entries are ignored, not propagated, because
the reductions are `nanmax`, `nanmin` and `nanmean`. -/
theorem nan_guarded_reductions (sig : Signal) (delta : ℚ)
    (hne : (peakDetection delta sig.values).1 ≠ [])
    (hg : dropNaN ((peakDetection delta sig.values).1.map Prod.snd) ≠ []) :
    (∃ M, PeaksMax.algorithm sig [(.delta, delta)] = .ok (some M, []) ∧
      M ∈ dropNaN ((peakDetection delta sig.values).1.map Prod.snd) ∧
      ∀ y ∈ dropNaN ((peakDetection delta sig.values).1.map Prod.snd),
        y ≤ M) ∧
    (∃ m, PeaksMin.algorithm sig [(.delta, delta)] = .ok (some m, []) ∧
      m ∈ dropNaN ((peakDetection delta sig.values).1.map Prod.snd) ∧
      ∀ y ∈ dropNaN ((peakDetection delta sig.values).1.map Prod.snd),
        m ≤ y) ∧
    PeaksMean.algorithm sig [(.delta, delta)] =
      .ok (some ((dropNaN ((peakDetection delta sig.values).1.map
          Prod.snd)).sum /
        ((dropNaN ((peakDetection delta sig.values).1.map
          Prod.snd)).length : ℚ)), []) := by
  obtain ⟨t, ts, htab⟩ := List.exists_cons_of_ne_nil hne
  rw [htab] at hg
  obtain ⟨M, hM1, hM2, hM3⟩ := qmax_spec hg
  obtain ⟨m, hm1, hm2, hm3⟩ := qmin_spec hg
  have hmean := nanmean_eq_sum_div hg
  rw [htab]
  have hM1n := hM1
  have hm1n := hm1
  have hmeann := hmean
  simp only [List.map_cons] at hM1n hm1n hmeann
  refine ⟨⟨M, ?_, hM2, hM3⟩, ⟨m, ?_, hm2, hm3⟩, ?_⟩
  · simp [PeaksMax.algorithm, lookup_delta, htab, nanmax, hM1n]
  · simp [PeaksMin.algorithm, lookup_delta, htab, nanmin, hm1n]
  · simp [PeaksMean.algorithm, lookup_delta, htab, hmeann]

theorem nan_guarded_reductions_witness :
    (∃ M, PeaksMax.algorithm sig1 [(.delta, 1)] = .ok (some M, []) ∧
      M ∈ dropNaN ((peakDetection 1 sig1.values).1.map Prod.snd) ∧
      ∀ y ∈ dropNaN ((peakDetection 1 sig1.values).1.map Prod.snd),
        y ≤ M) ∧
    (∃ m, PeaksMin.algorithm sig1 [(.delta, 1)] = .ok (some m, []) ∧
      m ∈ dropNaN ((peakDetection 1 sig1.values).1.map Prod.snd) ∧
      ∀ y ∈ dropNaN ((peakDetection 1 sig1.values).1.map Prod.snd),
        m ≤ y) ∧
    PeaksMean.algorithm sig1 [(.delta, 1)] =
      .ok (some ((dropNaN ((peakDetection 1 sig1.values).1.map
          Prod.snd)).sum /
        ((dropNaN ((peakDetection 1 sig1.values).1.map
          Prod.snd)).length : ℚ)), []) :=
  nan_guarded_reductions sig1 1 (by decide) (by decide)
